import Mathlib

/-!
Shallow embedding of `dbus/src/nonblock.rs`: the non-blocking `Connection`
(reply correlator `HashMap`, filter `BTreeMap`, `filter_nextid` counter),
its dispatch loop `process_all`, the `Proxy::method_call` request/future
bridge and the `MethodReply` future.

Interior mutability (`RefCell`/`Cell`) becomes explicit state passing on a
`Sys` record.  The boxed callbacks stored in the two tables become
defunctionalised callback values (`RCb`, `FCb`): an arbitrary user callback
may, as in the source, re-enter the connection (send, register or cancel
replies, start or stop filters), and the closure built by `method_call` is
the dedicated `RCb.deliverTo` constructor writing to its reply cell.
Dispatch is instrumented with a trace of events so that "invoked at most
once" style properties can be stated.
-/

namespace DBusNonblock

/-- Message kind (method-call / method-return / error / signal), part of the
external message collaborator's interface. -/
inductive MsgKind : Type where
  | methodCall
  | methodReturn
  | error
  | signal
deriving DecidableEq, Repr

/-- The external message type, reduced to the fields this module consults:
its own serial, the optional reply-to serial (`get_reply_serial`), its kind
and an opaque payload. -/
structure Message : Type where
  kind : MsgKind
  serial : Nat
  replySerial : Option Nat
  body : Nat
deriving DecidableEq, Repr

/-- `dbus::Error`, reduced to the constructions this module performs:
`Error::new_failed(text)` and an error decoded out of an error reply. -/
inductive DErr : Type where
  | failed (text : String)
  | replyError (body : Nat)
deriving DecidableEq, Repr

mutual
/-- One re-entrant connection operation a stored callback may perform on the
`&Connection` it receives (sending and table mutation; callbacks cannot pop
inbound messages). -/
inductive Act : Type where
  | sendMsg (m : Message)
  | cancelReply (id : Nat)
  | stopReceive (id : Nat)
  | sendWithReply (m : Message) (cb : RCb)
  | startReceive (rule : Message → Bool) (cb : FCb)

/-- A one-shot reply callback (`Box<dyn FnOnce(Message, &Connection)>`):
either an arbitrary user callback, or the closure built by `method_call`
that delivers the message into reply cell `cell`. -/
inductive RCb : Type where
  | acts (f : Message → List Act)
  | deliverTo (cell : Nat)

/-- A filter callback (`Box<dyn FnMut(Message, &Connection) -> bool>`):
its connection effects plus the returned "keep registered" flag. -/
inductive FCb : Type where
  | mk (f : Message → List Act) (keep : Message → Bool)
end

deriving instance DecidableEq for Except

/-- The state of one `MRInner` reply cell. -/
inductive MRInner : Type where
  | ready (r : Except DErr Message)
  | pending (w : Nat)
  | neither
deriving DecidableEq

/-- Trace events recorded by the instrumented semantics. -/
inductive Event : Type where
  /-- The correlator entry under `serial` was removed and its callback
  invoked with `m`. -/
  | replyFired (serial : Nat) (m : Message)
  /-- `m` was offered to the filter registry (the filter scan ran). -/
  | offered (m : Message)
  /-- Filter entry `id` was removed and its callback invoked with `m`. -/
  | filterFired (id : Nat) (m : Message)
  /-- A default protocol reply to `m` was synthesized and its send attempted. -/
  | defaultReplied (m : Message)
  /-- Waker `w` was woken. -/
  | woke (w : Nat)
deriving DecidableEq, Repr

/-! ### Association-list maps

`replies` is a `HashMap`, `filters` a `BTreeMap`; both are embedded as
association lists with unique keys, `filters` additionally kept sorted by
key so that iteration order is ascending key order, as for a `BTreeMap`. -/

/-- Map lookup. -/
def lookupKey {α : Type} : List (Nat × α) → Nat → Option α
  | [], _ => none
  | (k', v) :: t, k => if k' = k then some v else lookupKey t k

/-- Map removal (removes every pair at the key). -/
def eraseKey {α : Type} : List (Nat × α) → Nat → List (Nat × α)
  | [], _ => []
  | (k', v) :: t, k => if k' = k then eraseKey t k else (k', v) :: eraseKey t k

/-- `HashMap::insert` (replacing any previous binding). -/
def insertKey {α : Type} (l : List (Nat × α)) (k : Nat) (v : α) : List (Nat × α) :=
  (k, v) :: eraseKey l k

/-- `BTreeMap::insert`: sorted insert, replacing any previous binding. -/
def finsert {α : Type} : List (Nat × α) → Nat → α → List (Nat × α)
  | [], k, v => [(k, v)]
  | (k', v') :: t, k, v =>
    if k < k' then (k, v) :: (k', v') :: t
    else if k = k' then (k, v) :: t
    else (k', v') :: finsert t k v

/-! ### The connection state

`Sys` carries the `Connection` fields (`replies`, `filters`, `filter_nextid`)
together with the state of the external channel collaborator (its serial
counter and a send success/failure oracle), the store of `MRInner` reply
cells allocated by `method_call`, and the instrumentation trace. -/

/-- The modulus of the `u32` counter `filter_nextid`. -/
def U32MOD : Nat := 4294967296

/-- Whole-system state: the `Connection`'s tables plus the channel
collaborator and the allocated reply cells. -/
structure Sys : Type where
  /-- Next request serial the channel will assign (serials are assigned
  monotonically by the channel collaborator). -/
  serialCtr : Nat
  /-- Success/failure oracle for the channel's `send`, indexed by the
  number of prior send attempts. -/
  sendResults : Nat → Bool
  /-- Number of send attempts so far. -/
  sendCount : Nat
  /-- Messages successfully handed to the channel for transmission. -/
  sentQueue : List Message
  /-- `Connection.replies : RefCell<HashMap<u32, Box<dyn FnOnce ..>>>`. -/
  replies : List (Nat × RCb)
  /-- `Connection.filters : RefCell<BTreeMap<u32, (MatchRule, Box<dyn FnMut ..>)>>`,
  kept sorted by key. -/
  filters : List (Nat × ((Message → Bool) × FCb))
  /-- `Connection.filter_nextid : Cell<u32>`. -/
  filterNextid : Nat
  /-- The `Arc<Mutex<MRInner>>` reply cells, indexed by allocation order. -/
  cells : List (Nat × MRInner)
  /-- Next fresh reply-cell index. -/
  cellCtr : Nat
  /-- Instrumentation: dispatch events, in order. -/
  trace : List Event

/-- `impl From<Channel> for Connection`: fresh connection state over a fresh
channel. `replies`/`filters` are empty and `filter_nextid` is
`Default::default() = 0`. -/
def Sys.init (oracle : Nat → Bool) : Sys :=
  { serialCtr := 0
    sendResults := oracle
    sendCount := 0
    sentQueue := []
    replies := []
    filters := []
    filterNextid := 0
    cells := []
    cellCtr := 0
    trace := [] }

/-- `Channel::send`: consult the oracle; on success assign the next serial
monotonically and enqueue the message, on failure return `Err(())`. -/
def chanSend (s : Sys) (m : Message) : Option Nat × Sys :=
  if s.sendResults s.sendCount then
    (some s.serialCtr,
      { s with serialCtr := s.serialCtr + 1
               sendCount := s.sendCount + 1
               sentQueue := s.sentQueue ++ [m] })
  else
    (none, { s with sendCount := s.sendCount + 1 })

/-- `Connection::send_with_reply`:
`self.channel.send(msg).map(|x| { self.replies.borrow_mut().insert(x, f); x })`. -/
def connSendWithReply (s : Sys) (m : Message) (cb : RCb) : Option Nat × Sys :=
  match chanSend s m with
  | (some x, s1) => (some x, { s1 with replies := insertKey s1.replies x cb })
  | (none, s1) => (none, s1)

/-- `Connection::cancel_reply`: `self.replies.borrow_mut().remove(&id)`. -/
def connCancelReply (s : Sys) (id : Nat) : Option RCb × Sys :=
  (lookupKey s.replies id, { s with replies := eraseKey s.replies id })

/-- `Connection::start_receive`: read `filter_nextid`, bump it (`u32`
wrapping), insert the entry under the old value and return it. -/
def connStartReceive (s : Sys) (rule : Message → Bool) (cb : FCb) : Nat × Sys :=
  let id := s.filterNextid
  (id, { s with filterNextid := (id + 1) % U32MOD
                filters := finsert s.filters id (rule, cb) })

/-- `Connection::stop_receive`: `self.filters.borrow_mut().remove(&id)`. -/
def connStopReceive (s : Sys) (id : Nat) :
    Option ((Message → Bool) × FCb) × Sys :=
  (lookupKey s.filters id, { s with filters := eraseKey s.filters id })

/-- Write reply cell `c` (inserting it if absent). -/
def setCell (s : Sys) (c : Nat) (v : MRInner) : Sys :=
  { s with cells := insertKey s.cells c v }

/-- The closure built by `method_call`: under the cell's lock, replace the
cell state with `Ready(Ok(msg))` and, if the old state held a waker, wake
it. -/
def deliverCell (s : Sys) (c : Nat) (m : Message) : Sys :=
  let old := (lookupKey s.cells c).getD MRInner.neither
  let s1 := setCell s c (MRInner.ready (Except.ok m))
  match old with
  | MRInner.pending w => { s1 with trace := s1.trace ++ [Event.woke w] }
  | _ => s1

/-- Run one re-entrant connection operation performed by a callback. -/
def runAct (s : Sys) (a : Act) : Sys :=
  match a with
  | Act.sendMsg m => (chanSend s m).2
  | Act.cancelReply id => (connCancelReply s id).2
  | Act.stopReceive id => (connStopReceive s id).2
  | Act.sendWithReply m cb => (connSendWithReply s m cb).2
  | Act.startReceive rule cb => (connStartReceive s rule cb).2

/-- Run a callback's list of connection operations, in order. -/
def runActs (acts : List Act) (s : Sys) : Sys :=
  acts.foldl runAct s

/-- Invoke a stored one-shot reply callback with a message. -/
def runRCb (cb : RCb) (m : Message) (s : Sys) : Sys :=
  match cb with
  | RCb.acts f => runActs (f m) s
  | RCb.deliverTo c => deliverCell s c m

/-- `crate::channel::default_reply`.

Modelled from the spec: the function itself lives in the channel
collaborator (`src/dbus/src/channel.rs`, not under `src/`); per the spec it
synthesizes a default error/"unknown method" response exactly when "the
message requires a protocol-level response" (an unhandled method call). -/
def default_reply (m : Message) : Option Message :=
  if m.kind = MsgKind.methodCall then
    some { kind := MsgKind.error, serial := 0, replySerial := some m.serial, body := 0 }
  else
    none

/-- The filter-and-fallback stage of `process_all` (lines 96-108): record
that the message was offered to the filter registry, scan in ascending key
order for the first entry whose rule matches, remove it, invoke its
callback, and reinsert it under the same key iff the callback returns
`true`; with no match, attempt to send `default_reply` if there is one,
ignoring the send result. -/
def filterStage (s : Sys) (m : Message) : Sys :=
  let s0 := { s with trace := s.trace ++ [Event.offered m] }
  match s0.filters.find? (fun kv => kv.2.1 m) with
  | some (k, v) =>
    let s1 := { s0 with filters := eraseKey s0.filters k
                        trace := s0.trace ++ [Event.filterFired k m] }
    match v.2 with
    | FCb.mk f keep =>
      let s2 := runActs (f m) s1
      if keep m then { s2 with filters := finsert s2.filters k v } else s2
  | none =>
    match default_reply m with
    | some r =>
      (chanSend { s0 with trace := s0.trace ++ [Event.defaultReplied m] } r).2
    | none => s0

/-- One iteration of the `process_all` loop body (lines 89-108): a message
whose reply serial has a registered correlator entry has the entry removed
and the callback invoked; everything else goes to the filter stage. -/
def dispatchOne (s : Sys) (m : Message) : Sys :=
  match m.replySerial with
  | some serial =>
    match lookupKey s.replies serial with
    | some cb =>
      runRCb cb m
        { s with replies := eraseKey s.replies serial
                 trace := s.trace ++ [Event.replyFired serial m] }
    | none => filterStage s m
  | none => filterStage s m

/-- `Connection::process_all`: drain the currently buffered inbound
messages, dispatching each in turn. -/
def processAll (s : Sys) (msgs : List Message) : Sys :=
  msgs.foldl dispatchOne s

/-- `Message::read_all` as used by `method_call`'s decoding step.

Modelled from the spec: typed-argument extraction lives in the external
`arg` collaborator; per the spec it yields the typed payload of a reply and
fails on a reply that does not decode (an error message). -/
def Message.readAll (m : Message) : Except DErr Nat :=
  if m.kind = MsgKind.error then Except.error (DErr.replyError m.body)
  else Except.ok m.body

/-- The `MethodReply<T>` future: its shared cell plus the one-shot decoding
step (`self.1`), which `method_call` initialises to `read_all`. -/
structure MethodReply : Type where
  cell : Nat
  readfn : Option (Message → Except DErr Nat)

/-- `Proxy::method_call` (lines 142-158): allocate a fresh cell in state
`Neither`, register the delivering closure via `send_with_reply`, and on
send failure synchronously set the cell to
`Ready(Err(Error::new_failed("Failed to send message")))`. -/
def methodCall (s : Sys) (m : Message) : MethodReply × Sys :=
  match connSendWithReply
      { s with cells := insertKey s.cells s.cellCtr MRInner.neither
               cellCtr := s.cellCtr + 1 } m (RCb.deliverTo s.cellCtr) with
  | (some _, s2) => (⟨s.cellCtr, some Message.readAll⟩, s2)
  | (none, s2) =>
    (⟨s.cellCtr, some Message.readAll⟩,
      setCell s2 s.cellCtr
        (MRInner.ready (Except.error (DErr.failed "Failed to send message"))))

/-- `Result::and_then` on the stored reply result. -/
def exAndThen (r : Except DErr Message) (f : Message → Except DErr Nat) :
    Except DErr Nat :=
  match r with
  | Except.ok m => f m
  | Except.error e => Except.error e

/-- The under-the-lock part of `MethodReply::poll`: replace the cell state
with `Neither`; if it held `Ready(r)` yield `r`, otherwise store
`Pending(waker)` and yield nothing. -/
def cellPoll (s : Sys) (c : Nat) (w : Nat) : Option (Except DErr Message) × Sys :=
  match (lookupKey s.cells c).getD MRInner.neither with
  | MRInner.ready r => (some r, setCell s c MRInner.neither)
  | _ => (none, setCell s c (MRInner.pending w))

/-- Outcome of a single `poll` of a `MethodReply`. -/
inductive PollRes : Type where
  | isPending
  | ready (r : Except DErr Nat)
  /-- The `expect("Polled MethodReply after Ready")` panic. -/
  | violation
deriving DecidableEq, Repr

/-- `MethodReply::poll` (lines 172-184): consume a ready result, applying
the one-shot decoding step through `Result::and_then` (panicking if the
step was already consumed); otherwise store the latest waker and report
`Pending`. -/
def MethodReply.poll (mr : MethodReply) (w : Nat) (s : Sys) :
    PollRes × MethodReply × Sys :=
  match cellPoll s mr.cell w with
  | (some r, s1) =>
    match mr.readfn with
    | some f => (PollRes.ready (exAndThen r f), { mr with readfn := none }, s1)
    | none => (PollRes.violation, { mr with readfn := none }, s1)
  | (none, s1) => (PollRes.isPending, mr, s1)

/-- One top-level operation the external driver may perform on the
connection. -/
inductive Step : Type where
  | sendWithReply (m : Message) (cb : RCb)
  | cancelReply (id : Nat)
  | startReceive (rule : Message → Bool) (cb : FCb)
  | stopReceive (id : Nat)
  | processAll (msgs : List Message)
  | methodCall (m : Message)
  | pollCell (c : Nat) (w : Nat)

/-- Execute one driver operation. -/
def execStep (s : Sys) (st : Step) : Sys :=
  match st with
  | Step.sendWithReply m cb => (connSendWithReply s m cb).2
  | Step.cancelReply id => (connCancelReply s id).2
  | Step.startReceive rule cb => (connStartReceive s rule cb).2
  | Step.stopReceive id => (connStopReceive s id).2
  | Step.processAll msgs => processAll s msgs
  | Step.methodCall m => (methodCall s m).2
  | Step.pollCell c w => (cellPoll s c w).2

/-- Execute a sequence of driver operations. -/
def exec (s : Sys) (l : List Step) : Sys :=
  l.foldl execStep s

/-! ### Event classifiers and basic trace lemmas -/

/-- `true` exactly on `Event.replyFired k _`. -/
def firedFor (k : Nat) : Event → Bool
  | Event.replyFired k' _ => k' == k
  | _ => false

/-- `true` exactly on correlator-invocation events. -/
def Event.isReplyFired : Event → Bool
  | Event.replyFired _ _ => true
  | _ => false

/-- `true` exactly on filter-offer events. -/
def Event.isOffered : Event → Bool
  | Event.offered _ => true
  | _ => false

/-- A trace fragment containing nothing but waker notifications. -/
def OnlyWakes (l : List Event) : Prop :=
  ∀ e ∈ l, ∃ w, e = Event.woke w

/-! ### Lemmas on `finsert` and sorted keys -/

/-- Ascending-key order, the iteration order of a `BTreeMap`. -/
def SortedKeys {α : Type} (l : List (Nat × α)) : Prop :=
  l.Pairwise (fun p q => p.1 < q.1)

/-! ### Structural lemmas about the operations -/

/-- All filter keys lie below the `filter_nextid` counter (true of every
reachable state and preserved by re-entrant callback activity while the
counter does not wrap). -/
def FKeysLt (s : Sys) : Prop :=
  ∀ p ∈ s.filters, p.1 < s.filterNextid

/-- A trace fragment with no correlator-invocation event. -/
def NoFired (l : List Event) : Prop :=
  ∀ e ∈ l, e.isReplyFired = false

/-! ### The reply-correlator invariant

Registrations only ever happen under the serial freshly assigned by the
channel's monotone serial counter; `process_all` removes an entry before
invoking it.  Together these give: per request identifier, at most one
correlator invocation, and only with a message whose reply serial is that
identifier. -/

/-- Correlator invariant: all registered keys are below the channel's
serial counter, every correlator-invocation event recorded so far concerns
a serial below the counter and a message carrying exactly that reply
serial, no currently-registered key has fired yet, and no serial has fired
twice. -/
structure RInv (s : Sys) : Prop where
  keysLt : ∀ p ∈ s.replies, p.1 < s.serialCtr
  events : ∀ k m, Event.replyFired k m ∈ s.trace →
    k < s.serialCtr ∧ m.replySerial = some k
  freshKeys : ∀ p ∈ s.replies, s.trace.countP (firedFor p.1) = 0
  once : ∀ k, s.trace.countP (firedFor k) ≤ 1

/-! ### The reply-cell error invariant

The only error value ever stored directly in a reply cell is the
"Failed to send message" error of the synchronous send-failure path of
`method_call`; the correlator callback always stores `Ok(msg)`. -/

/-- Every reply cell holding an error holds the send-failure error. -/
def CellErrInv (s : Sys) : Prop :=
  ∀ c e, lookupKey s.cells c = some (MRInner.ready (Except.error e)) →
    e = DErr.failed "Failed to send message"

/-! ### Subscription-id sequences and example inputs -/

/-- A registration-interface operation: `start_receive` or `stop_receive`. -/
inductive RegOp : Type where
  | start (rule : Message → Bool) (cb : FCb)
  | stop (id : Nat)

/-- Run a sequence of `start_receive`/`stop_receive` calls, collecting the
subscription ids returned by the `start_receive` calls in order. -/
def runRegOps : Sys → List RegOp → List Nat × Sys
  | s, [] => ([], s)
  | s, RegOp.start rule cb :: t =>
    ((connStartReceive s rule cb).1 ::
        (runRegOps (connStartReceive s rule cb).2 t).1,
      (runRegOps (connStartReceive s rule cb).2 t).2)
  | s, RegOp.stop id :: t => runRegOps (connStopReceive s id).2 t

/-- Number of `start_receive` calls in a sequence. -/
def countStart : List RegOp → Nat
  | [] => 0
  | RegOp.start _ _ :: t => countStart t + 1
  | RegOp.stop _ :: t => countStart t

/-- Example send oracle: every send succeeds. -/
def exOracleT : Nat → Bool := fun _ => true

/-- Example send oracle: every send fails. -/
def exOracleF : Nat → Bool := fun _ => false

/-- Example method-return message answering request serial 0. -/
def exReply : Message :=
  { kind := MsgKind.methodReturn, serial := 7, replySerial := some 0, body := 5 }

/-- Example signal message. -/
def exSignal : Message :=
  { kind := MsgKind.signal, serial := 8, replySerial := none, body := 3 }

/-- Example method-call message. -/
def exCall : Message :=
  { kind := MsgKind.methodCall, serial := 9, replySerial := none, body := 4 }

/-- Example error message answering request serial 0. -/
def exErr : Message :=
  { kind := MsgKind.error, serial := 10, replySerial := some 0, body := 9 }

/-- Example user reply callback that does nothing. -/
def exRCb : RCb := RCb.acts (fun _ => [])

/-- Example always-true matching rule. -/
def exRuleT : Message → Bool := fun _ => true

/-- Example filter callback asking to stay registered. -/
def exFCbKeep : FCb := FCb.mk (fun _ => []) (fun _ => true)

/-- Example filter callback asking to be dropped. -/
def exFCbDrop : FCb := FCb.mk (fun _ => []) (fun _ => false)

/-- Example state with one registered correlator entry under serial 0. -/
def sC2 : Sys := exec (Sys.init exOracleT) [Step.sendWithReply exSignal exRCb]

/-- Example state with two always-matching filters under ids 0 and 1. -/
def sC3 : Sys :=
  { Sys.init exOracleT with
      filters := [(0, (exRuleT, exFCbDrop)), (1, (exRuleT, exFCbKeep))]
      filterNextid := 2 }

/-- Example state whose reply cell 0 holds a stored waker. -/
def sPend : Sys :=
  { Sys.init exOracleT with cells := [(0, MRInner.pending 1)] }

/-- Example state whose reply cell 0 holds a delivered reply. -/
def sReady : Sys :=
  { Sys.init exOracleT with cells := [(0, MRInner.ready (Except.ok exReply))] }

/-! ### Theorems -/

theorem lookupKey_eraseKey {α : Type} (l : List (Nat × α)) (k : Nat) :
    lookupKey (eraseKey l k) k = none := by
  induction l with
  | nil => rfl
  | cons p t ih =>
    obtain ⟨k', v⟩ := p
    by_cases h : k' = k
    · simpa [eraseKey, h] using ih
    · simpa [eraseKey, lookupKey, h] using ih

theorem lookupKey_eraseKey_ne {α : Type} (l : List (Nat × α)) (k k' : Nat) (h : k' ≠ k) :
    lookupKey (eraseKey l k) k' = lookupKey l k' := by
  induction l with
  | nil => rfl
  | cons p t ih =>
    obtain ⟨k0, v⟩ := p
    by_cases h0 : k0 = k
    · have h1 : ¬ k0 = k' := by omega
      simp only [eraseKey, lookupKey, if_pos h0, if_neg h1, ih]
    · simp only [eraseKey, lookupKey, if_neg h0]
      by_cases h1 : k0 = k'
      · simp only [lookupKey, if_pos h1]
      · simp only [lookupKey, if_neg h1, ih]

theorem lookupKey_insertKey {α : Type} (l : List (Nat × α)) (k : Nat) (v : α) :
    lookupKey (insertKey l k v) k = some v := by
  simp [insertKey, lookupKey]

theorem lookupKey_insertKey_ne {α : Type} (l : List (Nat × α)) (k k' : Nat) (v : α)
    (h : k' ≠ k) : lookupKey (insertKey l k v) k' = lookupKey l k' := by
  have : k ≠ k' := by omega
  simp [insertKey, lookupKey, this, lookupKey_eraseKey_ne l k k' h]

theorem mem_eraseKey {α : Type} (l : List (Nat × α)) (k : Nat) (p : Nat × α)
    (h : p ∈ eraseKey l k) : p ∈ l ∧ p.1 ≠ k := by
  induction l with
  | nil => simp [eraseKey] at h
  | cons q t ih =>
    obtain ⟨k0, v⟩ := q
    by_cases h0 : k0 = k
    · simp only [eraseKey, if_pos h0] at h
      have := ih h
      exact ⟨List.mem_cons_of_mem _ this.1, this.2⟩
    · simp only [eraseKey, if_neg h0] at h
      rcases List.mem_cons.mp h with h | h
      · subst h; exact ⟨List.mem_cons_self _ _, h0⟩
      · have := ih h
        exact ⟨List.mem_cons_of_mem _ this.1, this.2⟩

theorem lookupKey_mem {α : Type} (l : List (Nat × α)) (k : Nat) (v : α)
    (h : lookupKey l k = some v) : (k, v) ∈ l := by
  induction l with
  | nil => simp [lookupKey] at h
  | cons q t ih =>
    obtain ⟨k0, v0⟩ := q
    by_cases h0 : k0 = k
    · subst h0
      have h1 : v0 = v := by simpa [lookupKey] using h
      subst h1
      exact List.mem_cons_self _ _
    · simp only [lookupKey, if_neg h0] at h
      exact List.mem_cons_of_mem _ (ih h)

theorem eraseKey_not_mem {α : Type} (l : List (Nat × α)) (k : Nat)
    (h : lookupKey l k = none) : eraseKey l k = l := by
  induction l with
  | nil => rfl
  | cons q t ih =>
    obtain ⟨k0, v0⟩ := q
    by_cases h0 : k0 = k
    · simp [lookupKey, h0] at h
    · simp only [lookupKey, if_neg h0] at h
      simp [eraseKey, h0, ih h]

theorem firedFor_true {k : Nat} {e : Event} (h : firedFor k e = true) :
    ∃ m, e = Event.replyFired k m := by
  cases e with
  | replyFired k' m =>
    have : k' = k := by simpa [firedFor] using h
    exact ⟨m, by rw [this]⟩
  | offered m => simp [firedFor] at h
  | filterFired i m => simp [firedFor] at h
  | defaultReplied m => simp [firedFor] at h
  | woke w => simp [firedFor] at h

theorem firedFor_replyFired (k : Nat) (m : Message) :
    firedFor k (Event.replyFired k m) = true := by
  simp [firedFor]

theorem countP_firedFor_wakes {ws : List Event} (h : OnlyWakes ws) (k : Nat) :
    ws.countP (firedFor k) = 0 := by
  rw [List.countP_eq_zero]
  intro e he
  obtain ⟨w, rfl⟩ := h e he
  simp [firedFor]

theorem lookupKey_finsert {α : Type} (l : List (Nat × α)) (k : Nat) (v : α) :
    lookupKey (finsert l k v) k = some v := by
  induction l with
  | nil => simp [finsert, lookupKey]
  | cons p t ih =>
    obtain ⟨k', v'⟩ := p
    by_cases h0 : k < k'
    · simp [finsert, lookupKey, h0]
    · by_cases h1 : k = k'
      · simp [finsert, lookupKey, h0, h1]
      · have h2 : ¬ k' = k := by omega
        simp [finsert, lookupKey, h0, h1, h2, ih]

theorem lookupKey_finsert_ne {α : Type} (l : List (Nat × α)) (k k' : Nat) (v : α)
    (h : k' ≠ k) : lookupKey (finsert l k v) k' = lookupKey l k' := by
  induction l with
  | nil =>
    have : ¬ k = k' := by omega
    simp [finsert, lookupKey, this]
  | cons p t ih =>
    obtain ⟨k0, v0⟩ := p
    by_cases h0 : k < k0
    · have : ¬ k = k' := by omega
      simp [finsert, lookupKey, h0, this]
    · by_cases h1 : k = k0
      · have h2 : ¬ k = k' := by omega
        have h3 : ¬ k0 = k' := by omega
        simp [finsert, lookupKey, h0, h1, h2, h3]
      · simp only [finsert, if_neg h0, if_neg h1, lookupKey]
        by_cases h4 : k0 = k' <;> simp [h4, ih]

theorem mem_finsert {α : Type} (l : List (Nat × α)) (k : Nat) (v : α) (p : Nat × α)
    (h : p ∈ finsert l k v) : p = (k, v) ∨ p ∈ l := by
  induction l with
  | nil => simpa [finsert] using h
  | cons q t ih =>
    obtain ⟨k0, v0⟩ := q
    by_cases h0 : k < k0
    · simp only [finsert, if_pos h0] at h
      rcases List.mem_cons.mp h with h | h
      · exact Or.inl h
      · exact Or.inr h
    · by_cases h1 : k = k0
      · simp only [finsert, if_neg h0, if_pos h1] at h
        rcases List.mem_cons.mp h with h | h
        · exact Or.inl h
        · exact Or.inr (List.mem_cons_of_mem _ h)
      · simp only [finsert, if_neg h0, if_neg h1] at h
        rcases List.mem_cons.mp h with h | h
        · exact Or.inr (h ▸ List.mem_cons_self _ _)
        · rcases ih h with h | h
          · exact Or.inl h
          · exact Or.inr (List.mem_cons_of_mem _ h)

theorem eraseKey_sublist {α : Type} (l : List (Nat × α)) (k : Nat) :
    (eraseKey l k).Sublist l := by
  induction l with
  | nil => simp [eraseKey]
  | cons q t ih =>
    obtain ⟨k0, v0⟩ := q
    by_cases h0 : k0 = k
    · simp only [eraseKey, if_pos h0]
      exact ih.cons (k0, v0)
    · simp only [eraseKey, if_neg h0]
      exact ih.cons₂ (k0, v0)

theorem SortedKeys.eraseKey {α : Type} {l : List (Nat × α)} (h : SortedKeys l)
    (k : Nat) : SortedKeys (eraseKey l k) :=
  h.sublist (eraseKey_sublist l k)

theorem SortedKeys.finsert {α : Type} {l : List (Nat × α)} (h : SortedKeys l)
    (k : Nat) (v : α) : SortedKeys (finsert l k v) := by
  induction l with
  | nil => simp [DBusNonblock.finsert, SortedKeys]
  | cons q t ih =>
    obtain ⟨k0, v0⟩ := q
    rw [SortedKeys, List.pairwise_cons] at h
    obtain ⟨hb, ht⟩ := h
    by_cases h0 : k < k0
    · rw [DBusNonblock.finsert, if_pos h0]
      rw [SortedKeys, List.pairwise_cons]
      refine ⟨?_, List.pairwise_cons.mpr ⟨hb, ht⟩⟩
      intro q hq
      rcases List.mem_cons.mp hq with h | h
      · rw [h]; exact h0
      · have := hb q h
        omega
    · by_cases h1 : k = k0
      · rw [DBusNonblock.finsert, if_neg h0, if_pos h1]
        rw [SortedKeys, List.pairwise_cons]
        refine ⟨?_, ht⟩
        intro q hq
        have := hb q hq
        omega
      · rw [DBusNonblock.finsert, if_neg h0, if_neg h1]
        rw [SortedKeys, List.pairwise_cons]
        refine ⟨?_, ih ht⟩
        intro q hq
        rcases mem_finsert t k v q hq with h | h
        · rw [h]; simp; omega
        · exact hb q h

/-- On a list sorted by key, `find?` returns a matching entry such that no
entry with a smaller key matches. -/
theorem find?_first_sorted {α : Type} (l : List (Nat × α)) (pred : Nat × α → Bool)
    (hs : SortedKeys l) (k : Nat) (v : α) (h : l.find? pred = some (k, v)) :
    pred (k, v) = true ∧ (k, v) ∈ l ∧ ∀ q ∈ l, q.1 < k → pred q = false := by
  refine ⟨List.find?_some h, List.mem_of_find?_eq_some h, ?_⟩
  induction l with
  | nil => simp [List.find?] at h
  | cons q0 t ih =>
    rw [SortedKeys, List.pairwise_cons] at hs
    obtain ⟨hb, ht⟩ := hs
    by_cases hp : pred q0 = true
    · rw [List.find?_cons_of_pos _ hp] at h
      have hq0 : q0 = (k, v) := by simpa using h
      intro q hq hlt
      rcases List.mem_cons.mp hq with h1 | h1
      · subst h1
        rw [hq0] at hlt
        omega
      · have := hb q h1
        rw [hq0] at this
        omega
    · rw [List.find?_cons_of_neg _ hp] at h
      intro q hq hlt
      rcases List.mem_cons.mp hq with h1 | h1
      · subst h1
        simpa using hp
      · exact ih ht h q h1 hlt

theorem chanSend_parts (s : Sys) (m : Message) :
    (chanSend s m).2.trace = s.trace ∧ (chanSend s m).2.replies = s.replies ∧
    (chanSend s m).2.filters = s.filters ∧
    (chanSend s m).2.filterNextid = s.filterNextid ∧
    (chanSend s m).2.cells = s.cells ∧ s.serialCtr ≤ (chanSend s m).2.serialCtr := by
  by_cases h : s.sendResults s.sendCount = true <;> simp [chanSend, h]

theorem connSendWithReply_eq (s : Sys) (m : Message) (cb : RCb) :
    connSendWithReply s m cb =
      if s.sendResults s.sendCount then
        (some s.serialCtr,
          { s with serialCtr := s.serialCtr + 1
                   sendCount := s.sendCount + 1
                   sentQueue := s.sentQueue ++ [m]
                   replies := insertKey s.replies s.serialCtr cb })
      else (none, { s with sendCount := s.sendCount + 1 }) := by
  by_cases h : s.sendResults s.sendCount = true <;>
    simp [connSendWithReply, chanSend, h]

theorem runAct_trace (s : Sys) (a : Act) : (runAct s a).trace = s.trace := by
  cases a with
  | sendMsg m => exact (chanSend_parts s m).1
  | cancelReply id => rfl
  | stopReceive id => rfl
  | sendWithReply m cb =>
    rw [runAct, connSendWithReply_eq]
    by_cases h : s.sendResults s.sendCount = true <;> simp [h]
  | startReceive rule cb => rfl

theorem runAct_cells (s : Sys) (a : Act) : (runAct s a).cells = s.cells := by
  cases a with
  | sendMsg m => exact (chanSend_parts s m).2.2.2.2.1
  | cancelReply id => rfl
  | stopReceive id => rfl
  | sendWithReply m cb =>
    rw [runAct, connSendWithReply_eq]
    by_cases h : s.sendResults s.sendCount = true <;> simp [h]
  | startReceive rule cb => rfl

theorem runActs_cons (a : Act) (t : List Act) (s : Sys) :
    runActs (a :: t) s = runActs t (runAct s a) := rfl

theorem runActs_trace (acts : List Act) (s : Sys) :
    (runActs acts s).trace = s.trace := by
  induction acts generalizing s with
  | nil => rfl
  | cons a t ih => rw [runActs_cons, ih, runAct_trace]

theorem runActs_cells (acts : List Act) (s : Sys) :
    (runActs acts s).cells = s.cells := by
  induction acts generalizing s with
  | nil => rfl
  | cons a t ih => rw [runActs_cons, ih, runAct_cells]

theorem setCell_parts (s : Sys) (c : Nat) (v : MRInner) :
    (setCell s c v).trace = s.trace ∧ (setCell s c v).replies = s.replies ∧
    (setCell s c v).filters = s.filters ∧ (setCell s c v).serialCtr = s.serialCtr := by
  exact ⟨rfl, rfl, rfl, rfl⟩

theorem deliverCell_trace (s : Sys) (c : Nat) (m : Message) :
    ∃ ws, (deliverCell s c m).trace = s.trace ++ ws ∧ OnlyWakes ws := by
  unfold deliverCell
  cases h : (lookupKey s.cells c).getD MRInner.neither with
  | pending w =>
    exact ⟨[Event.woke w], rfl, fun e he => ⟨w, by simpa using he⟩⟩
  | ready r => exact ⟨[], by simp [setCell], fun e he => by simp at he⟩
  | neither => exact ⟨[], by simp [setCell], fun e he => by simp at he⟩

theorem runRCb_trace (cb : RCb) (m : Message) (s : Sys) :
    ∃ ws, (runRCb cb m s).trace = s.trace ++ ws ∧ OnlyWakes ws := by
  cases cb with
  | acts f =>
    exact ⟨[], by simp [runRCb, runActs_trace], fun e he => by simp at he⟩
  | deliverTo c => exact deliverCell_trace s c m

/-- While the `filter_nextid` counter cannot wrap during a callback's
re-entrant activity, the callback can only create entries at fresh keys, so
a key that is absent and below the counter stays absent. -/
theorem runActs_keeps_absent (acts : List Act) (s : Sys) (k : Nat)
    (hk : k < s.filterNextid) (hlt : FKeysLt s)
    (hbound : s.filterNextid + acts.length < U32MOD)
    (habs : lookupKey s.filters k = none) :
    lookupKey (runActs acts s).filters k = none := by
  induction acts generalizing s with
  | nil => exact habs
  | cons a t ih =>
    rw [runActs_cons]
    have hlen : (a :: t).length = t.length + 1 := rfl
    cases a with
    | sendMsg m =>
      have h1 := (chanSend_parts s m).2.2.1
      have h2 := (chanSend_parts s m).2.2.2.1
      refine ih _ ?_ ?_ ?_ ?_
      · rw [runAct]; rw [h2]; exact hk
      · intro p hp
        rw [runAct] at hp ⊢
        rw [h2]
        exact hlt p (h1 ▸ hp)
      · rw [runAct, h2]; rw [hlen] at hbound; omega
      · rw [runAct, h1]; exact habs
    | cancelReply id =>
      refine ih _ hk (fun p hp => hlt p hp) ?_ habs
      show s.filterNextid + t.length < U32MOD
      rw [hlen] at hbound
      omega
    | stopReceive id =>
      refine ih _ hk ?_ ?_ ?_
      · intro p hp
        have := mem_eraseKey s.filters id p hp
        exact hlt p this.1
      · show s.filterNextid + t.length < U32MOD
        rw [hlen] at hbound
        omega
      · show lookupKey (eraseKey s.filters id) k = none
        by_cases hid : id = k
        · rw [hid]; exact lookupKey_eraseKey _ _
        · rw [lookupKey_eraseKey_ne _ _ _ (by omega)]; exact habs
    | sendWithReply m cb =>
      have he := connSendWithReply_eq s m cb
      by_cases h : s.sendResults s.sendCount = true
      · have h1 : (runAct s (Act.sendWithReply m cb)).filters = s.filters := by
          rw [runAct, he]; simp [h]
        have h2 : (runAct s (Act.sendWithReply m cb)).filterNextid = s.filterNextid := by
          rw [runAct, he]; simp [h]
        refine ih _ (h2 ▸ hk) ?_ ?_ ?_
        · intro p hp
          rw [h2]
          exact hlt p (h1 ▸ hp)
        · rw [h2]; rw [hlen] at hbound; omega
        · rw [h1]; exact habs
      · have h1 : (runAct s (Act.sendWithReply m cb)).filters = s.filters := by
          rw [runAct, he]; simp [h]
        have h2 : (runAct s (Act.sendWithReply m cb)).filterNextid = s.filterNextid := by
          rw [runAct, he]; simp [h]
        refine ih _ (h2 ▸ hk) ?_ ?_ ?_
        · intro p hp
          rw [h2]
          exact hlt p (h1 ▸ hp)
        · rw [h2]; rw [hlen] at hbound; omega
        · rw [h1]; exact habs
    | startReceive rule cb =>
      rw [hlen] at hbound
      have hnowrap : (s.filterNextid + 1) % U32MOD = s.filterNextid + 1 :=
        Nat.mod_eq_of_lt (by omega)
      have h1 : (runAct s (Act.startReceive rule cb)).filters
          = finsert s.filters s.filterNextid (rule, cb) := rfl
      have h2 : (runAct s (Act.startReceive rule cb)).filterNextid
          = (s.filterNextid + 1) % U32MOD := rfl
      refine ih _ ?_ ?_ ?_ ?_
      · rw [h2, hnowrap]; omega
      · intro p hp
        rw [h2, hnowrap]
        rcases mem_finsert _ _ _ _ (h1 ▸ hp) with h | h
        · rw [h]; simp
        · have := hlt p h
          omega
      · rw [h2, hnowrap]; omega
      · rw [h1, lookupKey_finsert_ne _ _ _ _ (by omega)]
        exact habs

theorem filterStage_match_trace (s : Sys) (m : Message) (k : Nat)
    (rule : Message → Bool) (f : Message → List Act) (keep : Message → Bool)
    (hfind : s.filters.find? (fun kv => kv.2.1 m) = some (k, (rule, FCb.mk f keep))) :
    (filterStage s m).trace =
      s.trace ++ [Event.offered m, Event.filterFired k m] := by
  unfold filterStage
  simp only [hfind]
  by_cases hkeep : keep m = true <;>
    simp [hkeep, runActs_trace]

theorem filterStage_nomatch_trace (s : Sys) (m : Message)
    (hfind : s.filters.find? (fun kv => kv.2.1 m) = none) :
    (filterStage s m).trace =
      s.trace ++ Event.offered m ::
        (match default_reply m with
         | some _ => [Event.defaultReplied m]
         | none => []) := by
  unfold filterStage
  simp only [hfind]
  cases hd : default_reply m with
  | some r =>
    have := (chanSend_parts
      { s with trace := (s.trace ++ [Event.offered m]) ++ [Event.defaultReplied m] } r).1
    simpa using this
  | none => simp

theorem filterStage_trace (s : Sys) (m : Message) :
    ∃ tl, (filterStage s m).trace = s.trace ++ Event.offered m :: tl ∧
      ∀ e ∈ tl, e.isOffered = false ∧ e.isReplyFired = false := by
  cases hfind : s.filters.find? (fun kv => kv.2.1 m) with
  | some p =>
    obtain ⟨k, rule, fcb⟩ := p
    cases fcb with
    | mk f keep =>
      refine ⟨[Event.filterFired k m], ?_, ?_⟩
      · simpa using filterStage_match_trace s m k rule f keep hfind
      · intro e he
        simp only [List.mem_singleton] at he
        rw [he]
        exact ⟨rfl, rfl⟩
  | none =>
    refine ⟨(match default_reply m with
             | some _ => [Event.defaultReplied m]
             | none => []), filterStage_nomatch_trace s m hfind, ?_⟩
    intro e he
    cases hd : default_reply m with
    | some r =>
      rw [hd] at he
      simp only [List.mem_singleton] at he
      rw [he]
      exact ⟨rfl, rfl⟩
    | none =>
      rw [hd] at he
      simp at he

theorem dispatchOne_filterStage (s : Sys) (m : Message)
    (h : m.replySerial = none ∨
      ∃ k, m.replySerial = some k ∧ lookupKey s.replies k = none) :
    dispatchOne s m = filterStage s m := by
  rcases h with h | ⟨k, h1, h2⟩
  · simp [dispatchOne, h]
  · simp [dispatchOne, h1, h2]

theorem dispatchOne_correlated (s : Sys) (m : Message) (k : Nat) (cb : RCb)
    (h1 : m.replySerial = some k) (h2 : lookupKey s.replies k = some cb) :
    dispatchOne s m =
      runRCb cb m
        { s with replies := eraseKey s.replies k
                 trace := s.trace ++ [Event.replyFired k m] } := by
  simp [dispatchOne, h1, h2]

theorem OnlyWakes.noFired {l : List Event} (h : OnlyWakes l) : NoFired l := by
  intro e he
  obtain ⟨w, rfl⟩ := h e he
  rfl

theorem countP_firedFor_noFired {ws : List Event} (h : NoFired ws) (k : Nat) :
    ws.countP (firedFor k) = 0 := by
  rw [List.countP_eq_zero]
  intro e he hf
  obtain ⟨m, rfl⟩ := firedFor_true hf
  simpa [Event.isReplyFired] using h _ he

theorem countP_one (p : Event → Bool) (e : Event) :
    [e].countP p = if p e then 1 else 0 := by
  simp [List.countP_cons]

/-- After a filter match where the callback asked to be kept, the same
(rule, callback) pair is present under the same key. -/
theorem filterStage_keep_lookup (s : Sys) (m : Message) (k : Nat)
    (rule : Message → Bool) (f : Message → List Act) (keep : Message → Bool)
    (hfind : s.filters.find? (fun kv => kv.2.1 m) = some (k, (rule, FCb.mk f keep)))
    (hkeep : keep m = true) :
    lookupKey (filterStage s m).filters k = some (rule, FCb.mk f keep) := by
  unfold filterStage
  simp only [hfind]
  simp [hkeep, lookupKey_finsert]

/-- After a filter match where the callback asked to be dropped, no entry is
left under the key (while the subscription counter cannot wrap during the
callback's own re-entrant registrations). -/
theorem filterStage_drop_lookup (s : Sys) (m : Message) (k : Nat)
    (rule : Message → Bool) (f : Message → List Act) (keep : Message → Bool)
    (hfind : s.filters.find? (fun kv => kv.2.1 m) = some (k, (rule, FCb.mk f keep)))
    (hkeep : keep m = false)
    (hlt : FKeysLt s) (hbound : s.filterNextid + (f m).length < U32MOD) :
    lookupKey (filterStage s m).filters k = none := by
  have hmem : (k, (rule, FCb.mk f keep)) ∈ s.filters :=
    List.mem_of_find?_eq_some hfind
  have hk : k < s.filterNextid := hlt _ hmem
  unfold filterStage
  simp only [hfind]
  simp only [hkeep, Bool.false_eq_true, if_false]
  apply runActs_keeps_absent
  · exact hk
  · intro p hp
    exact hlt p (mem_eraseKey _ _ _ hp).1
  · exact hbound
  · exact lookupKey_eraseKey _ _

/-- The filter stage never touches the reply cells. -/
theorem filterStage_cells (s : Sys) (m : Message) :
    (filterStage s m).cells = s.cells := by
  unfold filterStage
  cases hfind : s.filters.find? (fun kv => kv.2.1 m) with
  | some p =>
    obtain ⟨k, rule, fcb⟩ := p
    cases fcb with
    | mk f keep =>
      simp only [hfind]
      by_cases hkeep : keep m = true <;> simp [hkeep, runActs_cells]
  | none =>
    simp only [hfind]
    cases hd : default_reply m with
    | some r => simpa using (chanSend_parts _ r).2.2.2.2.1
    | none => rfl

theorem RInv.mono {s s' : Sys} (h : RInv s)
    (hr : ∀ p ∈ s'.replies, p ∈ s.replies)
    (ws : List Event) (ht : s'.trace = s.trace ++ ws) (hws : NoFired ws)
    (hc : s.serialCtr ≤ s'.serialCtr) : RInv s' := by
  constructor
  · intro p hp
    have := h.keysLt p (hr p hp)
    omega
  · intro k m hm
    rw [ht] at hm
    rcases List.mem_append.mp hm with hm | hm
    · have := h.events k m hm
      exact ⟨by omega, this.2⟩
    · have := hws _ hm
      simp [Event.isReplyFired] at this
  · intro p hp
    rw [ht, List.countP_append, h.freshKeys p (hr p hp),
      countP_firedFor_noFired hws]
  · intro k
    rw [ht, List.countP_append, countP_firedFor_noFired hws]
    have := h.once k
    omega

theorem RInv_chanSend (s : Sys) (m : Message) (h : RInv s) :
    RInv (chanSend s m).2 := by
  obtain ⟨ht, hr, -, -, -, hc⟩ := chanSend_parts s m
  exact h.mono (fun p hp => hr ▸ hp) [] (by simp [ht]) (fun e he => by simp at he) hc

theorem RInv_connSendWithReply (s : Sys) (m : Message) (cb : RCb) (h : RInv s) :
    RInv (connSendWithReply s m cb).2 := by
  rw [connSendWithReply_eq]
  by_cases ho : s.sendResults s.sendCount = true
  · rw [if_pos ho]
    constructor
    · intro p hp
      show p.1 < s.serialCtr + 1
      rcases List.mem_cons.mp hp with hp | hp
      · rw [hp]; exact Nat.lt_succ_self _
      · have := h.keysLt p (mem_eraseKey _ _ _ hp).1
        omega
    · intro k m' hm
      have := h.events k m' hm
      exact ⟨by show k < s.serialCtr + 1; omega, this.2⟩
    · intro p hp
      rcases List.mem_cons.mp hp with hp | hp
      · rw [hp]
        show s.trace.countP (firedFor s.serialCtr) = 0
        rw [List.countP_eq_zero]
        intro e he hf
        obtain ⟨m', rfl⟩ := firedFor_true hf
        have := (h.events _ _ he).1
        omega
      · exact h.freshKeys p (mem_eraseKey _ _ _ hp).1
    · exact h.once
  · rw [if_neg ho]
    exact h.mono (fun p hp => hp) [] (by simp) (fun e he => by simp at he)
      (Nat.le_refl _)

theorem RInv_connCancelReply (s : Sys) (id : Nat) (h : RInv s) :
    RInv (connCancelReply s id).2 :=
  h.mono (fun p hp => (mem_eraseKey _ _ _ hp).1) [] (by simp [connCancelReply])
    (fun e he => by simp at he) (Nat.le_refl _)

theorem RInv_connStartReceive (s : Sys) (rule : Message → Bool) (cb : FCb)
    (h : RInv s) : RInv (connStartReceive s rule cb).2 :=
  h.mono (fun p hp => hp) [] (by simp [connStartReceive])
    (fun e he => by simp at he) (Nat.le_refl _)

theorem RInv_connStopReceive (s : Sys) (id : Nat) (h : RInv s) :
    RInv (connStopReceive s id).2 :=
  h.mono (fun p hp => hp) [] (by simp [connStopReceive])
    (fun e he => by simp at he) (Nat.le_refl _)

theorem deliverCell_parts (s : Sys) (c : Nat) (m : Message) :
    (deliverCell s c m).replies = s.replies ∧
    (deliverCell s c m).serialCtr = s.serialCtr ∧
    (deliverCell s c m).filters = s.filters := by
  unfold deliverCell
  cases (lookupKey s.cells c).getD MRInner.neither <;> simp [setCell]

theorem RInv_deliverCell (s : Sys) (c : Nat) (m : Message) (h : RInv s) :
    RInv (deliverCell s c m) := by
  obtain ⟨ws, hw, how⟩ := deliverCell_trace s c m
  obtain ⟨hr, hc, -⟩ := deliverCell_parts s c m
  exact h.mono (fun p hp => hr ▸ hp) ws hw how.noFired (Nat.le_of_eq hc.symm)

theorem RInv_runAct (s : Sys) (a : Act) (h : RInv s) : RInv (runAct s a) := by
  cases a with
  | sendMsg m => exact RInv_chanSend s m h
  | cancelReply id => exact RInv_connCancelReply s id h
  | stopReceive id => exact RInv_connStopReceive s id h
  | sendWithReply m cb => exact RInv_connSendWithReply s m cb h
  | startReceive rule cb => exact RInv_connStartReceive s rule cb h

theorem RInv_runActs (acts : List Act) (s : Sys) (h : RInv s) :
    RInv (runActs acts s) := by
  induction acts generalizing s with
  | nil => exact h
  | cons a t ih => exact ih _ (RInv_runAct s a h)

theorem RInv_runRCb (cb : RCb) (m : Message) (s : Sys) (h : RInv s) :
    RInv (runRCb cb m s) := by
  cases cb with
  | acts f => exact RInv_runActs _ _ h
  | deliverTo c => exact RInv_deliverCell s c m h

theorem RInv_filterStage (s : Sys) (m : Message) (h : RInv s) :
    RInv (filterStage s m) := by
  unfold filterStage
  cases hfind : s.filters.find? (fun kv => kv.2.1 m) with
  | some p =>
    obtain ⟨k, rule, fcb⟩ := p
    cases fcb with
    | mk f keep =>
      simp only [hfind]
      have h1 : RInv { s with
          filters := eraseKey s.filters k
          trace := (s.trace ++ [Event.offered m]) ++ [Event.filterFired k m] } := by
        refine h.mono (fun p hp => hp) [Event.offered m, Event.filterFired k m]
          ?_ ?_ (Nat.le_refl _)
        · simp
        · intro e he
          rcases List.mem_cons.mp he with he | he
          · rw [he]; rfl
          · simp only [List.mem_singleton] at he
            rw [he]; rfl
      have h2 := RInv_runActs (f m) _ h1
      by_cases hkeep : keep m = true
      · rw [if_pos hkeep]
        exact h2.mono (fun p hp => hp) [] (by simp) (fun e he => by simp at he)
          (Nat.le_refl _)
      · rw [if_neg hkeep]
        exact h2
  | none =>
    simp only [hfind]
    cases hd : default_reply m with
    | some r =>
      have h1 : RInv { s with
          trace := (s.trace ++ [Event.offered m]) ++ [Event.defaultReplied m] } := by
        refine h.mono (fun p hp => hp) [Event.offered m, Event.defaultReplied m]
          ?_ ?_ (Nat.le_refl _)
        · simp
        · intro e he
          rcases List.mem_cons.mp he with he | he
          · rw [he]; rfl
          · simp only [List.mem_singleton] at he
            rw [he]; rfl
      exact RInv_chanSend _ r h1
    | none =>
      exact h.mono (fun p hp => hp) [Event.offered m] (by simp)
        (fun e he => by simp only [List.mem_singleton] at he; rw [he]; rfl)
        (Nat.le_refl _)

theorem RInv_dispatchOne (s : Sys) (m : Message) (h : RInv s) :
    RInv (dispatchOne s m) := by
  cases hrs : m.replySerial with
  | none =>
    rw [dispatchOne_filterStage s m (Or.inl hrs)]
    exact RInv_filterStage s m h
  | some k =>
    cases hl : lookupKey s.replies k with
    | none =>
      rw [dispatchOne_filterStage s m (Or.inr ⟨k, hrs, hl⟩)]
      exact RInv_filterStage s m h
    | some cb =>
      rw [dispatchOne_correlated s m k cb hrs hl]
      apply RInv_runRCb
      constructor
      · intro p hp
        exact h.keysLt p (mem_eraseKey _ _ _ hp).1
      · intro k' m' hm
        rcases List.mem_append.mp hm with hm | hm
        · exact h.events k' m' hm
        · simp only [List.mem_singleton] at hm
          have hk : k' = k := by injection hm
          have hmm : m' = m := by injection hm
          subst hk; subst hmm
          exact ⟨h.keysLt _ (lookupKey_mem _ _ _ hl), hrs⟩
      · intro p hp
        have hme := mem_eraseKey _ _ _ hp
        rw [List.countP_append, h.freshKeys p hme.1, countP_one]
        have : firedFor p.1 (Event.replyFired k m) = false := by
          have : p.1 ≠ k := hme.2
          simp [firedFor]
          omega
        rw [this]
        rfl
      · intro k'
        rw [List.countP_append, countP_one]
        by_cases hk : k' = k
        · subst hk
          rw [h.freshKeys (k', cb) (lookupKey_mem _ _ _ hl)]
          simp [firedFor]
        · have h1 := h.once k'
          have h2 : firedFor k' (Event.replyFired k m) = false := by
            simp [firedFor]
            omega
          rw [h2]
          simpa using h1

theorem RInv_processAll (s : Sys) (msgs : List Message) (h : RInv s) :
    RInv (processAll s msgs) := by
  induction msgs generalizing s with
  | nil => exact h
  | cons m t ih => exact ih _ (RInv_dispatchOne s m h)

theorem cellPoll_parts (s : Sys) (c : Nat) (w : Nat) :
    (cellPoll s c w).2.replies = s.replies ∧ (cellPoll s c w).2.trace = s.trace ∧
    (cellPoll s c w).2.serialCtr = s.serialCtr ∧
    (cellPoll s c w).2.filters = s.filters ∧
    (cellPoll s c w).2.filterNextid = s.filterNextid := by
  unfold cellPoll
  cases (lookupKey s.cells c).getD MRInner.neither <;> simp [setCell]

theorem RInv_cellPoll (s : Sys) (c : Nat) (w : Nat) (h : RInv s) :
    RInv (cellPoll s c w).2 := by
  obtain ⟨hr, ht, hc, -, -⟩ := cellPoll_parts s c w
  exact h.mono (fun p hp => hr ▸ hp) [] (by simp [ht])
    (fun e he => by simp at he) (Nat.le_of_eq hc.symm)

theorem RInv_methodCall (s : Sys) (m : Message) (h : RInv s) :
    RInv (methodCall s m).2 := by
  have h1 : RInv { s with cells := insertKey s.cells s.cellCtr MRInner.neither
                          cellCtr := s.cellCtr + 1 } :=
    h.mono (fun p hp => hp) [] (by simp) (fun e he => by simp at he)
      (Nat.le_refl _)
  have h2 := RInv_connSendWithReply _ m (RCb.deliverTo s.cellCtr) h1
  unfold methodCall
  rcases hsw : connSendWithReply
      { s with cells := insertKey s.cells s.cellCtr MRInner.neither
               cellCtr := s.cellCtr + 1 } m (RCb.deliverTo s.cellCtr)
    with ⟨o, s2⟩
  rw [hsw] at h2
  cases o with
  | some x => exact h2
  | none =>
    exact h2.mono (fun p hp => hp) [] (by simp [setCell])
      (fun e he => by simp at he) (Nat.le_refl _)

theorem RInv_execStep (s : Sys) (st : Step) (h : RInv s) : RInv (execStep s st) := by
  cases st with
  | sendWithReply m cb => exact RInv_connSendWithReply s m cb h
  | cancelReply id => exact RInv_connCancelReply s id h
  | startReceive rule cb => exact RInv_connStartReceive s rule cb h
  | stopReceive id => exact RInv_connStopReceive s id h
  | processAll msgs => exact RInv_processAll s msgs h
  | methodCall m => exact RInv_methodCall s m h
  | pollCell c w => exact RInv_cellPoll s c w h

theorem RInv_exec (s : Sys) (steps : List Step) (h : RInv s) :
    RInv (exec s steps) := by
  induction steps generalizing s with
  | nil => exact h
  | cons st t ih => exact ih _ (RInv_execStep s st h)

theorem RInv_init (oracle : Nat → Bool) : RInv (Sys.init oracle) := by
  constructor
  · intro p hp; simp [Sys.init] at hp
  · intro k m hm; simp [Sys.init] at hm
  · intro p hp; simp [Sys.init] at hp
  · intro k; simp [Sys.init]

theorem CellErrInv.of_eq {s s' : Sys} (h : CellErrInv s)
    (hc : s'.cells = s.cells) : CellErrInv s' := by
  intro c e he
  rw [hc] at he
  exact h c e he

theorem CellErrInv.insert {s s' : Sys} (h : CellErrInv s) (c : Nat) (v : MRInner)
    (hc : s'.cells = insertKey s.cells c v)
    (hv : ∀ e, v = MRInner.ready (Except.error e) →
      e = DErr.failed "Failed to send message") : CellErrInv s' := by
  intro c' e he
  rw [hc] at he
  by_cases hcc : c' = c
  · subst hcc
    rw [lookupKey_insertKey] at he
    exact hv e (by injection he)
  · rw [lookupKey_insertKey_ne _ _ _ _ hcc] at he
    exact h c' e he

theorem connSendWithReply_cells (s : Sys) (m : Message) (cb : RCb) :
    (connSendWithReply s m cb).2.cells = s.cells := by
  rw [connSendWithReply_eq]
  by_cases h : s.sendResults s.sendCount = true <;> simp [h]

theorem CellErrInv_deliverCell (s : Sys) (c : Nat) (m : Message)
    (h : CellErrInv s) : CellErrInv (deliverCell s c m) := by
  have hc : (deliverCell s c m).cells
      = insertKey s.cells c (MRInner.ready (Except.ok m)) := by
    unfold deliverCell
    cases (lookupKey s.cells c).getD MRInner.neither <;> simp [setCell]
  exact h.insert c _ hc (fun e he => by simp at he)

theorem CellErrInv_runAct (s : Sys) (a : Act) (h : CellErrInv s) :
    CellErrInv (runAct s a) :=
  h.of_eq (runAct_cells s a)

theorem CellErrInv_runActs (acts : List Act) (s : Sys) (h : CellErrInv s) :
    CellErrInv (runActs acts s) :=
  h.of_eq (runActs_cells acts s)

theorem CellErrInv_runRCb (cb : RCb) (m : Message) (s : Sys) (h : CellErrInv s) :
    CellErrInv (runRCb cb m s) := by
  cases cb with
  | acts f => exact CellErrInv_runActs _ _ h
  | deliverTo c => exact CellErrInv_deliverCell s c m h

theorem CellErrInv_filterStage (s : Sys) (m : Message) (h : CellErrInv s) :
    CellErrInv (filterStage s m) :=
  h.of_eq (filterStage_cells s m)

theorem CellErrInv_dispatchOne (s : Sys) (m : Message) (h : CellErrInv s) :
    CellErrInv (dispatchOne s m) := by
  cases hrs : m.replySerial with
  | none =>
    rw [dispatchOne_filterStage s m (Or.inl hrs)]
    exact CellErrInv_filterStage s m h
  | some k =>
    cases hl : lookupKey s.replies k with
    | none =>
      rw [dispatchOne_filterStage s m (Or.inr ⟨k, hrs, hl⟩)]
      exact CellErrInv_filterStage s m h
    | some cb =>
      rw [dispatchOne_correlated s m k cb hrs hl]
      exact CellErrInv_runRCb cb m _ (h.of_eq rfl)

theorem CellErrInv_processAll (s : Sys) (msgs : List Message) (h : CellErrInv s) :
    CellErrInv (processAll s msgs) := by
  induction msgs generalizing s with
  | nil => exact h
  | cons m t ih => exact ih _ (CellErrInv_dispatchOne s m h)

theorem CellErrInv_cellPoll (s : Sys) (c : Nat) (w : Nat) (h : CellErrInv s) :
    CellErrInv (cellPoll s c w).2 := by
  unfold cellPoll
  cases (lookupKey s.cells c).getD MRInner.neither with
  | ready r =>
    exact h.insert c MRInner.neither rfl (fun e he => by simp at he)
  | pending w0 =>
    exact h.insert c (MRInner.pending w) rfl (fun e he => by simp at he)
  | neither =>
    exact h.insert c (MRInner.pending w) rfl (fun e he => by simp at he)

theorem CellErrInv_methodCall (s : Sys) (m : Message) (h : CellErrInv s) :
    CellErrInv (methodCall s m).2 := by
  have h1 : CellErrInv { s with
      cells := insertKey s.cells s.cellCtr MRInner.neither
      cellCtr := s.cellCtr + 1 } :=
    h.insert s.cellCtr MRInner.neither rfl (fun e he => by simp at he)
  have h2 := h1.of_eq (connSendWithReply_cells
      { s with cells := insertKey s.cells s.cellCtr MRInner.neither
               cellCtr := s.cellCtr + 1 } m (RCb.deliverTo s.cellCtr))
  unfold methodCall
  rcases hsw : connSendWithReply
      { s with cells := insertKey s.cells s.cellCtr MRInner.neither
               cellCtr := s.cellCtr + 1 } m (RCb.deliverTo s.cellCtr)
    with ⟨o, s2⟩
  rw [hsw] at h2
  cases o with
  | some x => exact h2
  | none =>
    exact h2.insert s.cellCtr
      (MRInner.ready (Except.error (DErr.failed "Failed to send message")))
      rfl (fun e he => by injection he with h1; injection h1 with h2; exact h2.symm)

theorem CellErrInv_execStep (s : Sys) (st : Step) (h : CellErrInv s) :
    CellErrInv (execStep s st) := by
  cases st with
  | sendWithReply m cb => exact h.of_eq (connSendWithReply_cells s m cb)
  | cancelReply id => exact h.of_eq rfl
  | startReceive rule cb => exact h.of_eq rfl
  | stopReceive id => exact h.of_eq rfl
  | processAll msgs => exact CellErrInv_processAll s msgs h
  | methodCall m => exact CellErrInv_methodCall s m h
  | pollCell c w => exact CellErrInv_cellPoll s c w h

theorem CellErrInv_exec (s : Sys) (steps : List Step) (h : CellErrInv s) :
    CellErrInv (exec s steps) := by
  induction steps generalizing s with
  | nil => exact h
  | cons st t ih => exact ih _ (CellErrInv_execStep s st h)

theorem CellErrInv_init (oracle : Nat → Bool) : CellErrInv (Sys.init oracle) := by
  intro c e he
  simp [Sys.init, lookupKey] at he

theorem runRegOps_ids (ops : List RegOp) (s : Sys)
    (h : s.filterNextid < U32MOD) :
    (runRegOps s ops).1 =
      (List.range (countStart ops)).map
        (fun i => (s.filterNextid + i) % U32MOD) := by
  induction ops generalizing s with
  | nil => rfl
  | cons op t ih =>
    cases op with
    | start rule cb =>
      have hM : 0 < U32MOD := by decide
      have h1 : (connStartReceive s rule cb).2.filterNextid
          = (s.filterNextid + 1) % U32MOD := rfl
      have h2 : (connStartReceive s rule cb).2.filterNextid < U32MOD := by
        rw [h1]; exact Nat.mod_lt _ hM
      have hid : (connStartReceive s rule cb).1 = s.filterNextid := rfl
      show (connStartReceive s rule cb).1 ::
          (runRegOps (connStartReceive s rule cb).2 t).1 = _
      rw [hid, ih _ h2, h1]
      have hfun : (fun i => ((s.filterNextid + 1) % U32MOD + i) % U32MOD)
          = (fun i => (s.filterNextid + (i + 1)) % U32MOD) := by
        funext i
        rw [Nat.mod_add_mod]
        congr 1
        omega
      rw [hfun]
      show _ = (List.range (countStart t + 1)).map
        (fun i => (s.filterNextid + i) % U32MOD)
      rw [List.range_succ_eq_map, List.map_cons, List.map_map]
      have hhead : (s.filterNextid + 0) % U32MOD = s.filterNextid := by
        rw [Nat.add_zero, Nat.mod_eq_of_lt h]
      rw [hhead]
      simp [Function.comp]
    | stop id =>
      have h2 : (connStopReceive s id).2.filterNextid < U32MOD := h
      show (runRegOps (connStopReceive s id).2 t).1 = _
      rw [ih ((connStopReceive s id).2) h2]
      rfl

/-- **C10** (implicit, numerical): on a freshly constructed connection
(`From<Channel>`, where `filter_nextid` is `Default::default() = 0`), the
subscription ids handed out by successive `start_receive` calls are
`0, 1, 2, …` reduced modulo `2^32` (the `u32` counter wraps), and
interleaved `stop_receive` calls never affect the counter: for every
interleaving of `start_receive`/`stop_receive` operations, the `n`-th
`start_receive` call (0-based) returns `n % 2^32`. -/
theorem start_receive_ids_sequential (oracle : Nat → Bool) (ops : List RegOp) :
    (Sys.init oracle).filterNextid = 0 ∧
    (runRegOps (Sys.init oracle) ops).1 =
      (List.range (countStart ops)).map (fun i => i % U32MOD) := by
  refine ⟨rfl, ?_⟩
  have h := runRegOps_ids ops (Sys.init oracle)
    (by show (0 : Nat) < U32MOD; decide)
  simpa [Sys.init] using h

/-- **C7**: `cancel_reply` on an identifier with no registered entry (never
registered, already fired, or already cancelled) returns `None` and leaves
the connection state (the correlator table included) completely unchanged. -/
theorem cancel_reply_missing_noop (s : Sys) (id : Nat)
    (h : lookupKey s.replies id = none) :
    connCancelReply s id = (none, s) := by
  unfold connCancelReply
  rw [h, eraseKey_not_mem s.replies id h]

/-- Witness for `cancel_reply_missing_noop` at a concrete connection. -/
theorem cancel_reply_missing_noop_witness :
    connCancelReply (Sys.init exOracleT) 3 = (none, Sys.init exOracleT) :=
  cancel_reply_missing_noop (Sys.init exOracleT) 3 rfl

/-- **C1**: over every sequence of driver operations (`send_with_reply`
registrations, `process_all` dispatches, and any other connection
activity, including re-entrant callback activity), each request identifier
has its correlator callback invoked at most once, and any correlator
invocation for identifier `k` carries a message whose reply serial is
exactly `k`.  Since each registration is keyed by the channel's
monotonically assigned fresh serial, this is at-most-once invocation per
registration: `process_all` removes the entry before invoking it, and a
callback re-registering inside itself only ever obtains fresh identifiers. -/
theorem reply_callback_at_most_once (oracle : Nat → Bool) (steps : List Step)
    (k : Nat) :
    (exec (Sys.init oracle) steps).trace.countP (firedFor k) ≤ 1 ∧
    ∀ m, Event.replyFired k m ∈ (exec (Sys.init oracle) steps).trace →
      m.replySerial = some k := by
  have h := RInv_exec (Sys.init oracle) steps (RInv_init oracle)
  exact ⟨h.once k, fun m hm => (h.events k m hm).2⟩

/-- Witness for `reply_callback_at_most_once`: a registration whose reply
message is dispatched twice still fires only once. -/
theorem reply_callback_at_most_once_witness :
    (exec (Sys.init exOracleT) [Step.sendWithReply exSignal exRCb,
        Step.processAll [exReply, exReply]]).trace.countP (firedFor 0) ≤ 1 ∧
    exReply.replySerial = some 0 :=
  ⟨(reply_callback_at_most_once exOracleT
      [Step.sendWithReply exSignal exRCb, Step.processAll [exReply, exReply]] 0).1,
   (reply_callback_at_most_once exOracleT
      [Step.sendWithReply exSignal exRCb, Step.processAll [exReply, exReply]] 0).2
      exReply (by decide)⟩

/-- **C2**: in `process_all`, a popped message carrying a reply serial with
a registered correlator entry is delivered only to that entry's callback:
the dispatch events are exactly the one correlator invocation (plus at most
waker notifications), so the message is never offered to the filter
registry nor to the default handler.  A message carrying a reply serial
with no registered entry is offered to the filter registry exactly once and
never goes through the correlator: the dispatch events are one offer and
then only non-offer, non-correlator events. -/
theorem correlated_reply_precedence (s : Sys) (m : Message) (k : Nat)
    (h : m.replySerial = some k) :
    (∀ cb, lookupKey s.replies k = some cb →
      ∃ ws, (dispatchOne s m).trace =
        s.trace ++ Event.replyFired k m :: ws ∧ OnlyWakes ws) ∧
    (lookupKey s.replies k = none →
      ∃ tl, (dispatchOne s m).trace = s.trace ++ Event.offered m :: tl ∧
        ∀ e ∈ tl, e.isOffered = false ∧ e.isReplyFired = false) := by
  constructor
  · intro cb hcb
    rw [dispatchOne_correlated s m k cb h hcb]
    obtain ⟨ws, hw, how⟩ := runRCb_trace cb m
      { s with replies := eraseKey s.replies k
               trace := s.trace ++ [Event.replyFired k m] }
    refine ⟨ws, ?_, how⟩
    rw [hw]
    simp
  · intro hn
    rw [dispatchOne_filterStage s m (Or.inr ⟨k, h, hn⟩)]
    exact filterStage_trace s m

/-- Witness for `correlated_reply_precedence`: a registered and an
unregistered reply serial, dispatched on concrete connections. -/
theorem correlated_reply_precedence_witness :
    (∃ ws, (dispatchOne sC2 exReply).trace =
      sC2.trace ++ Event.replyFired 0 exReply :: ws ∧ OnlyWakes ws) ∧
    (∃ tl, (dispatchOne (Sys.init exOracleT) exReply).trace =
      (Sys.init exOracleT).trace ++ Event.offered exReply :: tl ∧
      ∀ e ∈ tl, e.isOffered = false ∧ e.isReplyFired = false) :=
  ⟨(correlated_reply_precedence sC2 exReply 0 rfl).1 exRCb rfl,
   (correlated_reply_precedence (Sys.init exOracleT) exReply 0 rfl).2 rfl⟩

/-- **C3**: at the filter stage of `process_all`, the registry (sorted in
ascending subscription-id order, as a `BTreeMap` iterates) is scanned for
the first entry whose rule matches: the found entry's rule does match, no
entry with a smaller subscription id matches, and the dispatch trace
records exactly one filter invocation — the found entry's — so no entry
with a larger subscription id sees the message even if its rule also
matches. -/
theorem filter_first_match_wins (s : Sys) (m : Message) (k : Nat)
    (v : (Message → Bool) × FCb)
    (hs : SortedKeys s.filters)
    (hstage : m.replySerial = none ∨
      ∃ k0, m.replySerial = some k0 ∧ lookupKey s.replies k0 = none)
    (hfind : s.filters.find? (fun kv => kv.2.1 m) = some (k, v)) :
    v.1 m = true ∧
    (∀ q ∈ s.filters, q.1 < k → q.2.1 m = false) ∧
    (dispatchOne s m).trace =
      s.trace ++ [Event.offered m, Event.filterFired k m] := by
  obtain ⟨hp, hmem, hfirst⟩ := find?_first_sorted s.filters _ hs k v hfind
  refine ⟨hp, fun q hq hlt => hfirst q hq hlt, ?_⟩
  rw [dispatchOne_filterStage s m hstage]
  obtain ⟨rule, fcb⟩ := v
  cases fcb with
  | mk f keep => exact filterStage_match_trace s m k rule f keep hfind

/-- Witness for `filter_first_match_wins`: two filters with overlapping
always-true rules under ids 0 and 1; only id 0 fires. -/
theorem filter_first_match_wins_witness :
    (exRuleT, exFCbDrop).1 exSignal = true ∧
    (∀ q ∈ sC3.filters, q.1 < 0 → q.2.1 exSignal = false) ∧
    (dispatchOne sC3 exSignal).trace =
      sC3.trace ++ [Event.offered exSignal, Event.filterFired 0 exSignal] :=
  filter_first_match_wins sC3 exSignal 0 (exRuleT, exFCbDrop)
    (by simp [sC3, SortedKeys, Sys.init]) (Or.inl rfl) rfl

/-- **C4**: when `process_all` invokes the matching filter entry, the entry
is first removed (the registry passed to the callback has no binding under
its key), and it is reinserted under its original key exactly when the
callback returns `true`: a "keep" callback leaves the same (rule, callback)
pair under the same id, and a "do not keep" callback leaves no entry under
that id on the next dispatch pass (given that the `u32` subscription
counter cannot wrap during the callback's own re-registrations, so the
callback cannot recreate the key itself). -/
theorem filter_keep_reinsertion (s : Sys) (m : Message) (k : Nat)
    (rule : Message → Bool) (f : Message → List Act) (keep : Message → Bool)
    (hstage : m.replySerial = none ∨
      ∃ k0, m.replySerial = some k0 ∧ lookupKey s.replies k0 = none)
    (hfind : s.filters.find? (fun kv => kv.2.1 m) = some (k, (rule, FCb.mk f keep)))
    (hlt : FKeysLt s) (hbound : s.filterNextid + (f m).length < U32MOD) :
    lookupKey (eraseKey s.filters k) k = none ∧
    (keep m = true →
      lookupKey (dispatchOne s m).filters k = some (rule, FCb.mk f keep)) ∧
    (keep m = false →
      lookupKey (dispatchOne s m).filters k = none) := by
  refine ⟨lookupKey_eraseKey _ _, ?_, ?_⟩
  · intro hkeep
    rw [dispatchOne_filterStage s m hstage]
    exact filterStage_keep_lookup s m k rule f keep hfind hkeep
  · intro hkeep
    rw [dispatchOne_filterStage s m hstage]
    exact filterStage_drop_lookup s m k rule f keep hfind hkeep hlt hbound

/-- Witness for `filter_keep_reinsertion`: the dropping filter under id 0
is gone after dispatch, and the keeping filter under id 1 survives a
dispatch that reaches it. -/
theorem filter_keep_reinsertion_witness :
    lookupKey (eraseKey sC3.filters 0) 0 = none ∧
    ((fun (_ : Message) => false) exSignal = true →
      lookupKey (dispatchOne sC3 exSignal).filters 0 =
        some (exRuleT, FCb.mk (fun _ => []) (fun _ => false))) ∧
    ((fun (_ : Message) => false) exSignal = false →
      lookupKey (dispatchOne sC3 exSignal).filters 0 = none) :=
  filter_keep_reinsertion sC3 exSignal 0 exRuleT (fun _ => [])
    (fun _ => false) (Or.inl rfl) rfl
    (by intro p hp; simp [sC3, Sys.init] at hp
        rcases hp with h | h <;> rw [h] <;> decide)
    (by show (2 : Nat) + 0 < U32MOD; decide)

/-- **C5**: when the channel's send fails, `send_with_reply` returns
`Err(())` and inserts nothing into the reply correlator, and `method_call`
synchronously sets the reply cell to `Ready(Err("Failed to send message"))`
so that polling the returned future resolves immediately with that
error. -/
theorem method_call_send_failure (s : Sys) (m : Message) (w : Nat) (cb : RCb)
    (hfail : s.sendResults s.sendCount = false) :
    (connSendWithReply s m cb).1 = none ∧
    (connSendWithReply s m cb).2.replies = s.replies ∧
    (methodCall s m).2.replies = s.replies ∧
    lookupKey (methodCall s m).2.cells (methodCall s m).1.cell =
      some (MRInner.ready (Except.error (DErr.failed "Failed to send message"))) ∧
    (MethodReply.poll (methodCall s m).1 w (methodCall s m).2).1 =
      PollRes.ready (Except.error (DErr.failed "Failed to send message")) := by
  have hnot : ¬ (s.sendResults s.sendCount = true) := by simp [hfail]
  have h1 : connSendWithReply s m cb =
      (none, { s with sendCount := s.sendCount + 1 }) := by
    rw [connSendWithReply_eq, if_neg hnot]
  have h2 : connSendWithReply
      { s with cells := insertKey s.cells s.cellCtr MRInner.neither
               cellCtr := s.cellCtr + 1 } m (RCb.deliverTo s.cellCtr) =
      (none, { s with cells := insertKey s.cells s.cellCtr MRInner.neither
                      cellCtr := s.cellCtr + 1
                      sendCount := s.sendCount + 1 }) := by
    rw [connSendWithReply_eq, if_neg hnot]
  have hm : methodCall s m =
      (⟨s.cellCtr, some Message.readAll⟩,
        setCell { s with cells := insertKey s.cells s.cellCtr MRInner.neither
                         cellCtr := s.cellCtr + 1
                         sendCount := s.sendCount + 1 }
          s.cellCtr
          (MRInner.ready (Except.error (DErr.failed "Failed to send message")))) := by
    unfold methodCall
    rw [h2]
  refine ⟨by rw [h1], by rw [h1], by rw [hm]; rfl, ?_, ?_⟩
  · rw [hm]
    exact lookupKey_insertKey _ _ _
  · rw [hm]
    unfold MethodReply.poll cellPoll
    simp [setCell, lookupKey_insertKey, exAndThen]

/-- Witness for `method_call_send_failure` on a concrete failing channel. -/
theorem method_call_send_failure_witness :
    (connSendWithReply (Sys.init exOracleF) exCall exRCb).1 = none ∧
    (connSendWithReply (Sys.init exOracleF) exCall exRCb).2.replies =
      (Sys.init exOracleF).replies ∧
    (methodCall (Sys.init exOracleF) exCall).2.replies =
      (Sys.init exOracleF).replies ∧
    lookupKey (methodCall (Sys.init exOracleF) exCall).2.cells
        (methodCall (Sys.init exOracleF) exCall).1.cell =
      some (MRInner.ready (Except.error (DErr.failed "Failed to send message"))) ∧
    (MethodReply.poll (methodCall (Sys.init exOracleF) exCall).1 3
        (methodCall (Sys.init exOracleF) exCall).2).1 =
      PollRes.ready (Except.error (DErr.failed "Failed to send message")) :=
  method_call_send_failure (Sys.init exOracleF) exCall 3 exRCb rfl

/-- **C6**: polling a `MethodReply` before delivery stores only the latest
poller's waker — an already-stored waker is overwritten and not notified
(the trace is unchanged) — and returns `Pending`; polling after delivery
consumes the stored result exactly once, applying the one-shot decoding
step through `and_then` and leaving the cell at `Neither` and the decoder
consumed, so a second poll of the consumed future yields no result (it
returns `Pending` again); and a poll that finds the cell ready with the
decoding step already consumed is the detected contract violation (the
"Polled MethodReply after Ready" panic). -/
theorem poll_latest_waker_and_once (s : Sys) (c : Nat) (w wOld : Nat)
    (d : Message → Except DErr Nat) (r : Except DErr Message) :
    (lookupKey s.cells c = some (MRInner.pending wOld) →
      MethodReply.poll ⟨c, some d⟩ w s =
        (PollRes.isPending, ⟨c, some d⟩, setCell s c (MRInner.pending w)) ∧
      (setCell s c (MRInner.pending w)).trace = s.trace) ∧
    (lookupKey s.cells c = some (MRInner.ready r) →
      MethodReply.poll ⟨c, some d⟩ w s =
        (PollRes.ready (exAndThen r d), ⟨c, none⟩, setCell s c MRInner.neither) ∧
      (MethodReply.poll ⟨c, none⟩ w (setCell s c MRInner.neither)).1 =
        PollRes.isPending) ∧
    (lookupKey s.cells c = some (MRInner.ready r) →
      (MethodReply.poll ⟨c, none⟩ w s).1 = PollRes.violation) := by
  refine ⟨fun h => ⟨?_, rfl⟩, fun h => ⟨?_, ?_⟩, fun h => ?_⟩
  · unfold MethodReply.poll cellPoll
    simp [h]
  · unfold MethodReply.poll cellPoll
    simp [h]
  · unfold MethodReply.poll cellPoll
    simp [setCell, lookupKey_insertKey]
  · unfold MethodReply.poll cellPoll
    simp [h]

/-- Witness for `poll_latest_waker_and_once` at concrete cells in the
pending and the delivered state. -/
theorem poll_latest_waker_and_once_witness :
    (MethodReply.poll ⟨0, some Message.readAll⟩ 5 sPend =
        (PollRes.isPending, ⟨0, some Message.readAll⟩,
          setCell sPend 0 (MRInner.pending 5)) ∧
      (setCell sPend 0 (MRInner.pending 5)).trace = sPend.trace) ∧
    ((MethodReply.poll ⟨0, some Message.readAll⟩ 5 sReady =
        (PollRes.ready (exAndThen (Except.ok exReply) Message.readAll),
          ⟨0, none⟩, setCell sReady 0 MRInner.neither) ∧
      (MethodReply.poll ⟨0, none⟩ 5 (setCell sReady 0 MRInner.neither)).1 =
        PollRes.isPending) ∧
    (MethodReply.poll ⟨0, none⟩ 5 sReady).1 = PollRes.violation) :=
  ⟨(poll_latest_waker_and_once sPend 0 5 1 Message.readAll
      (Except.ok exReply)).1 rfl,
   (poll_latest_waker_and_once sReady 0 5 1 Message.readAll
      (Except.ok exReply)).2.1 rfl,
   (poll_latest_waker_and_once sReady 0 5 1 Message.readAll
      (Except.ok exReply)).2.2 rfl⟩

theorem chanSend_sentQueue (s : Sys) (m : Message) :
    (chanSend s m).2.sentQueue =
      if s.sendResults s.sendCount then s.sentQueue ++ [m]
      else s.sentQueue := by
  by_cases h : s.sendResults s.sendCount = true <;> simp [chanSend, h]

/-- **C8**: a message that matches no correlator entry and no filter but is
an (unhandled) method call causes a default error response to be
synthesized and its send attempted; whether that send succeeds or fails,
`process_all` carries on and no table state changes because of it. -/
theorem unmatched_call_default_reply (s : Sys) (m : Message)
    (hstage : m.replySerial = none ∨
      ∃ k, m.replySerial = some k ∧ lookupKey s.replies k = none)
    (hnomatch : s.filters.find? (fun kv => kv.2.1 m) = none)
    (hcall : m.kind = MsgKind.methodCall) :
    (dispatchOne s m).replies = s.replies ∧
    (dispatchOne s m).filters = s.filters ∧
    (dispatchOne s m).filterNextid = s.filterNextid ∧
    (dispatchOne s m).trace =
      s.trace ++ [Event.offered m, Event.defaultReplied m] ∧
    (s.sendResults s.sendCount = true →
      (dispatchOne s m).sentQueue = s.sentQueue ++
        [{ kind := MsgKind.error, serial := 0, replySerial := some m.serial,
           body := 0 }]) ∧
    (s.sendResults s.sendCount = false →
      (dispatchOne s m).sentQueue = s.sentQueue) := by
  have hd : default_reply m =
      some { kind := MsgKind.error, serial := 0, replySerial := some m.serial,
             body := 0 } := by
    simp [default_reply, hcall]
  rw [dispatchOne_filterStage s m hstage]
  unfold filterStage
  simp only [hnomatch, hd]
  obtain ⟨ht, hr, hf, hn, -, -⟩ := chanSend_parts
    { s with trace := (s.trace ++ [Event.offered m]) ++ [Event.defaultReplied m] }
    { kind := MsgKind.error, serial := 0, replySerial := some m.serial, body := 0 }
  refine ⟨hr, hf, hn, ?_, fun h1 => ?_, fun h1 => ?_⟩
  · rw [ht]
    simp
  · rw [chanSend_sentQueue]
    simp [h1]
  · rw [chanSend_sentQueue]
    simp [h1]

/-- Witness for `unmatched_call_default_reply`: an unhandled method call on
a fresh connection. -/
theorem unmatched_call_default_reply_witness :
    (dispatchOne (Sys.init exOracleT) exCall).replies =
      (Sys.init exOracleT).replies ∧
    (dispatchOne (Sys.init exOracleT) exCall).filters =
      (Sys.init exOracleT).filters ∧
    (dispatchOne (Sys.init exOracleT) exCall).filterNextid =
      (Sys.init exOracleT).filterNextid ∧
    (dispatchOne (Sys.init exOracleT) exCall).trace =
      (Sys.init exOracleT).trace ++
        [Event.offered exCall, Event.defaultReplied exCall] ∧
    ((Sys.init exOracleT).sendResults (Sys.init exOracleT).sendCount = true →
      (dispatchOne (Sys.init exOracleT) exCall).sentQueue =
        (Sys.init exOracleT).sentQueue ++
          [{ kind := MsgKind.error, serial := 0,
             replySerial := some exCall.serial, body := 0 }]) ∧
    ((Sys.init exOracleT).sendResults (Sys.init exOracleT).sendCount = false →
      (dispatchOne (Sys.init exOracleT) exCall).sentQueue =
        (Sys.init exOracleT).sentQueue) :=
  unmatched_call_default_reply (Sys.init exOracleT) exCall
    (Or.inl rfl) rfl rfl

/-- **C9** (implicit): the reply callback registered by `method_call`
(`RCb.deliverTo`) always stores the raw reply message as `Ok(msg)` in the
cell — also when that message is a protocol error message — and across all
reachable states the only error ever stored directly in a reply cell is the
synchronous send-failure error, so an error reply can surface only through
the decoding step applied at poll time. -/
theorem reply_cell_stores_ok :
    (∀ (oracle : Nat → Bool) (steps : List Step) (c : Nat) (e : DErr),
      lookupKey (exec (Sys.init oracle) steps).cells c =
        some (MRInner.ready (Except.error e)) →
      e = DErr.failed "Failed to send message") ∧
    (∀ (s : Sys) (c : Nat) (m : Message),
      lookupKey (deliverCell s c m).cells c =
        some (MRInner.ready (Except.ok m))) := by
  constructor
  · intro oracle steps c e he
    exact CellErrInv_exec _ steps (CellErrInv_init oracle) c e he
  · intro s c m
    have hc : (deliverCell s c m).cells =
        insertKey s.cells c (MRInner.ready (Except.ok m)) := by
      unfold deliverCell
      cases (lookupKey s.cells c).getD MRInner.neither <;> simp [setCell]
    rw [hc]
    exact lookupKey_insertKey _ _ _

/-- Witness for `reply_cell_stores_ok`: the failing `method_call` stores
the send-failure error, and delivery of an error-kind message still stores
it as `Ok`. -/
theorem reply_cell_stores_ok_witness :
    DErr.failed "Failed to send message" = DErr.failed "Failed to send message" ∧
    lookupKey (deliverCell (Sys.init exOracleT) 0 exErr).cells 0 =
      some (MRInner.ready (Except.ok exErr)) :=
  ⟨reply_cell_stores_ok.1 exOracleF [Step.methodCall exCall] 0
      (DErr.failed "Failed to send message") (by decide),
   reply_cell_stores_ok.2 (Sys.init exOracleT) 0 exErr⟩

end DBusNonblock

